import Mathlib

/-
Verification of the DNS-provider subsystem of a dynamic-DNS updater
(zone resolution, zone cache, record store, CRUD orchestration).

The repository ships only the provider-neutral interface (internal/api/base.go)
and the test suites (internal/api/cloudflare_test.go, internal/domainexp/parser_test.go);
the concrete implementation files are not part of the source tree.  The
definitions below therefore model that implementation from the specification
document, with the in-tree tests pinning the observable behaviour (query
counts, emitted diagnostics, cache effects).  Remote interaction is modelled
by an explicit environment of response functions, and every operation
returns, besides its result, the successor state, the list of remote calls
it issued, and the list of diagnostic messages it emitted.
-/

namespace DDNS

/-! ### Association lists (the in-memory caches are plain keyed maps) -/

/-- Lookup in an association list (first binding wins, as in a Go map). -/
def alookup {α β : Type} [DecidableEq α] : List (α × β) → α → Option β
  | [], _ => none
  | (k, v) :: rest, a => if k = a then some v else alookup rest a

/-- Insert-or-replace in an association list (Go map assignment). -/
def aupsert {α β : Type} [DecidableEq α] : List (α × β) → α → β → List (α × β)
  | [], a, b => [(a, b)]
  | (k, v) :: rest, a, b => if k = a then (a, b) :: rest else (k, v) :: aupsert rest a b

/-- Remove a key from an association list (Go map delete). -/
def aremove {α β : Type} [DecidableEq α] : List (α × β) → α → List (α × β)
  | [], _ => []
  | (k, v) :: rest, a => if k = a then aremove rest a else (k, v) :: aremove rest a

theorem alookup_aupsert {α β : Type} [DecidableEq α] (l : List (α × β)) (a : α) (b : β) (x : α) :
    alookup (aupsert l a b) x = if x = a then some b else alookup l x := by
  induction l with
  | nil =>
    by_cases h : x = a
    · subst h; simp [aupsert, alookup]
    · simp [aupsert, alookup, h, Ne.symm h]
  | cons kv rest ih =>
    obtain ⟨k, v⟩ := kv
    by_cases hk : k = a
    · subst hk
      by_cases hx : x = k
      · subst hx; simp [aupsert, alookup]
      · simp [aupsert, alookup, hx, Ne.symm hx]
    · by_cases hkx : k = x
      · have hxa : ¬x = a := fun h => hk (hkx.trans h)
        simp [aupsert, alookup, hk, hkx, hxa]
      · simp [aupsert, alookup, hk, hkx, ih]

theorem alookup_aupsert_self {α β : Type} [DecidableEq α] (l : List (α × β)) (a : α) (b : β) :
    alookup (aupsert l a b) a = some b := by
  simp [alookup_aupsert]

theorem alookup_aupsert_other {α β : Type} [DecidableEq α] (l : List (α × β)) (a : α) (b : β)
    (x : α) (h : x ≠ a) : alookup (aupsert l a b) x = alookup l x := by
  simp [alookup_aupsert, h]

theorem alookup_aremove {α β : Type} [DecidableEq α] (l : List (α × β)) (a : α) (x : α) :
    alookup (aremove l a) x = if x = a then none else alookup l x := by
  induction l with
  | nil => by_cases h : x = a <;> simp [aremove, alookup, h]
  | cons kv rest ih =>
    obtain ⟨k, v⟩ := kv
    by_cases hk : k = a
    · subst hk
      by_cases hx : x = k
      · subst hx; simp [aremove, alookup, ih]
      · simp [aremove, alookup, ih, hx, Ne.symm hx]
    · by_cases hkx : k = x
      · have hxa : ¬x = a := fun h => hk (hkx.trans h)
        simp [aremove, alookup, hk, hkx, hxa]
      · simp [aremove, alookup, hk, hkx, ih]

/-! ### Domains

Modelled from the spec: a Domain is a two-variant tagged union, Literal
(called FQDN in the source tests) and Wildcard, both carrying a normalized
label sequence.  The wire name of a wildcard is the apex prefixed with
a star and a dot.  (The concrete Go domain package is not in the tree.) -/

/-- Join DNS labels with dots into a raw name string. -/
def joinLabels : List String → String
  | [] => ""
  | [l] => l
  | l :: ls => l ++ "." ++ joinLabels ls

/-- Modelled from the spec: a hostname is a literal name or a wildcard,
both as normalized label sequences. -/
inductive Domain where
  | FQDN (labels : List String)
  | Wildcard (labels : List String)
deriving DecidableEq, Repr

/-- Wire-format (ASCII) name of a domain. -/
def Domain.dnsNameASCII : Domain → String
  | .FQDN ls => joinLabels ls
  | .Wildcard ls => "*." ++ joinLabels ls

/-- Label sequence carried by a domain (the apex, for a wildcard). -/
def Domain.labelsOf : Domain → List String
  | .FQDN ls => ls
  | .Wildcard ls => ls

/-- Number of labels of the carried label sequence. -/
def Domain.numLabels (d : Domain) : Nat := d.labelsOf.length

/-- All dotted suffix names of a label sequence, most specific first. -/
def suffixNames : List String → List String
  | [] => []
  | l :: ls => joinLabels (l :: ls) :: suffixNames ls

/-- Modelled from the spec: the ordered candidate list for zone resolution.
For a literal, all suffixes of the full name down to the top label; for a
wildcard, the suffixes of the apex (the star is never a candidate). -/
def Domain.candidates : Domain → List String
  | .FQDN ls => suffixNames ls
  | .Wildcard ls => suffixNames ls

/-! ### Zones, statuses, diagnostics, remote calls -/

/-- A provider zone as returned by a zone query: an id plus the raw
server-reported status string. -/
structure Zone where
  id : String
  status : String
deriving DecidableEq, Repr

/-- Modelled from the spec: classification of the raw status string. -/
inductive ZoneStatusClass where
  | Active
  | Degraded
  | Undocumented
  | Removed
deriving DecidableEq, Repr

/-- Modelled from the spec: Active is the raw status active; Degraded covers
pending and initializing; Removed covers deleted; anything else is
Undocumented. -/
def classifyStatus (raw : String) : ZoneStatusClass :=
  if raw = "active" then .Active
  else if raw = "pending" ∨ raw = "initializing" then .Degraded
  else if raw = "deleted" then .Removed
  else .Undocumented

/-- A zone counts toward eligibility and ambiguity iff it is not Removed. -/
def zoneEligible (z : Zone) : Bool :=
  match classifyStatus z.status with
  | .Removed => false
  | _ => true

/-- Diagnostic messages, one constructor per message template of the
implementation (the templates are pinned by the test suite). -/
inductive Msg where
  | zoneSkipped (zoneName status : String)
  | zoneDegradedWarning (zoneName status : String)
  | zoneDegradedWarning2 (zoneName status : String)
  | zoneUndocumentedWarning (zoneName status : String)
  | zoneUndocumentedWarning2
  | zoneLookupFailed (zoneName : String)
  | zoneAmbiguous (zoneName : String)
  | zoneNotFound (domainName : String)
  | recordParseFailed (domainName : String)
  | recordListFailed (domainName : String)
  | recordCreateFailed (domainName : String)
  | recordUpdateFailed (domainName : String)
  | recordDeleteFailed (domainName : String)
  | authEmptyToken
  | authTokenRejected
  | authNetworkFailed
deriving DecidableEq, Repr

/-- Remote protocol calls, recorded in the order they are issued. -/
inductive RemoteCall where
  | zoneQuery (name : String)
  | recordList (zoneID name recType : String)
  | recordCreate (zoneID name recType content : String) (ttl : Nat) (proxied : Bool)
  | recordUpdate (zoneID recordID name recType content : String)
  | recordDelete (zoneID recordID : String)
  | tokenVerify
deriving DecidableEq, Repr

/-- Modelled from the spec: the remote provider, as response functions.
A query result of none is a transport or decode failure; pagination is
collapsed into one atomic query that either yields all pages or fails. -/
structure Remote where
  zones : String → Option (List Zone)
  recordList : String → String → String → Option (List (String × String))
  recordCreate : String → String → String → String → Nat → Bool → Option String
  recordUpdate : String → String → String → String → String → Bool
  recordDelete : String → String → Bool

/-- The two warning lines emitted when a Degraded or Undocumented zone is
selected (none for Active; Removed zones are never selected). -/
def statusWarnings (zoneName : String) (z : Zone) : List Msg :=
  match classifyStatus z.status with
  | .Degraded => [.zoneDegradedWarning zoneName z.status, .zoneDegradedWarning2 zoneName z.status]
  | .Undocumented => [.zoneUndocumentedWarning zoneName z.status, .zoneUndocumentedWarning2]
  | _ => []

/-! ### Zone Cache and Zone Resolver -/

/-- Zone-resolution state: the Zone Cache (per raw zone-name string, a
populated entry is a possibly empty list of zones) together with the
per-domain resolution memo that the cached re-resolution test exhibits. -/
structure ZState where
  zoneCache : List (String × List Zone)
  zoneMemo : List (String × String)
deriving DecidableEq, Repr

/-- The value a zone-name query observes: the cached entry if populated,
otherwise whatever the remote returns. -/
def zoneView (remote : Remote) (zc : List (String × List Zone)) (n : String) :
    Option (List Zone) :=
  match alookup zc n with
  | some zs => some zs
  | none => remote.zones n

/-- Modelled from the spec: Zone Cache lookup.  A populated key answers with
zero remote calls; an unpopulated key issues one (collapsed, paginated)
remote query, caches the result (even when empty) on success, and on failure
reports a lookup failure and leaves the entry unpopulated. -/
def zoneLookup (remote : Remote) (zc : List (String × List Zone)) (n : String) :
    Option (List Zone) × List (String × List Zone) × List RemoteCall × List Msg :=
  match alookup zc n with
  | some zs => (some zs, zc, [], [])
  | none =>
    match remote.zones n with
    | some zs => (some zs, aupsert zc n zs, [.zoneQuery n], [])
    | none => (none, zc, [.zoneQuery n], [.zoneLookupFailed n])

/-- Outcome of the suffix-descent walk over the candidate list. -/
inductive WalkOutcome where
  | found (zoneID : String)
  | exhausted
  | ambiguous (zoneName : String)
  | failed (zoneName : String)
deriving DecidableEq, Repr

/-- Modelled from the spec: the suffix-descent search.  For each candidate in
order: look the name up through the Zone Cache; a lookup failure aborts;
Removed zones are filtered out with one skipped notice each; zero eligible
zones continue to the next candidate; exactly one eligible zone is the
result (with status warnings when it is Degraded or Undocumented); two or
more eligible zones abort as ambiguous. -/
def zoneSearch (remote : Remote) : List String → List (String × List Zone) →
    WalkOutcome × List (String × List Zone) × List RemoteCall × List Msg
  | [], zc => (.exhausted, zc, [], [])
  | name :: rest, zc =>
    let lk := zoneLookup remote zc name
    match lk.1 with
    | none => (.failed name, lk.2.1, lk.2.2.1, lk.2.2.2)
    | some zs =>
      let skips := (zs.filter fun z => !zoneEligible z).map fun z => Msg.zoneSkipped name z.status
      match zs.filter zoneEligible with
      | [] =>
        let r := zoneSearch remote rest lk.2.1
        (r.1, r.2.1, lk.2.2.1 ++ r.2.2.1, lk.2.2.2 ++ skips ++ r.2.2.2)
      | [z] => (.found z.id, lk.2.1, lk.2.2.1, lk.2.2.2 ++ skips ++ statusWarnings name z)
      | _ :: _ :: _ => (.ambiguous name, lk.2.1, lk.2.2.1, lk.2.2.2 ++ skips ++ [.zoneAmbiguous name])

/-- Modelled from the spec: full zone resolution for a domain.  A memoized
domain answers silently with zero remote calls; otherwise the suffix-descent
walk runs, a found zone is memoized, exhaustion reports not-found, and
ambiguity or a lookup failure aborts with the message already emitted by
the walk. -/
def ZoneOfDomain (remote : Remote) (zst : ZState) (d : Domain) :
    Option String × ZState × List RemoteCall × List Msg :=
  match alookup zst.zoneMemo d.dnsNameASCII with
  | some id => (some id, zst, [], [])
  | none =>
    let r := zoneSearch remote d.candidates zst.zoneCache
    match r.1 with
    | .found id =>
      (some id, ⟨r.2.1, aupsert zst.zoneMemo d.dnsNameASCII id⟩, r.2.2.1, r.2.2.2)
    | .exhausted =>
      (none, ⟨r.2.1, zst.zoneMemo⟩, r.2.2.1, r.2.2.2 ++ [.zoneNotFound d.dnsNameASCII])
    | .ambiguous _ => (none, ⟨r.2.1, zst.zoneMemo⟩, r.2.2.1, r.2.2.2)
    | .failed _ => (none, ⟨r.2.1, zst.zoneMemo⟩, r.2.2.1, r.2.2.2)

/-! ### Record Store and the Handle operations -/

/-- Address family; maps 1:1 to the record type. -/
inductive Family where
  | v4
  | v6
deriving DecidableEq, Repr

/-- Wire record type of an address family. -/
def Family.recordType : Family → String
  | .v4 => "A"
  | .v6 => "AAAA"

/-- Full handle state: zone-resolution state plus the Record Store, keyed by
(wire name of the domain, address family); a stored map sends provider
record ids to (canonical string forms of) addresses. -/
structure CFState where
  zs : ZState
  recordStore : List ((String × Family) × List (String × String))
deriving DecidableEq, Repr

/-- Parse every listed record's content with the supplied address parser;
any single failure fails the whole batch with no partial result. -/
def parseRecords (parse : String → Option String) :
    List (String × String) → Option (List (String × String))
  | [] => some []
  | (id, content) :: rest =>
    match parse content, parseRecords parse rest with
    | some a, some m => some ((id, a) :: m)
    | _, _ => none

/-- Modelled from the spec: List.  A warm Record Store entry answers with no
remote call at all; otherwise the zone is resolved, the remote listing is
fetched and parsed, a parse failure fails the call leaving the entry in its
prior state, and full success replaces the entry. -/
def ListRecords (remote : Remote) (parse : String → Option String) (st : CFState)
    (d : Domain) (fam : Family) :
    Option (List (String × String)) × CFState × List RemoteCall × List Msg :=
  match alookup st.recordStore (d.dnsNameASCII, fam) with
  | some m => (some m, st, [], [])
  | none =>
    let z := ZoneOfDomain remote st.zs d
    match z.1 with
    | none => (none, ⟨z.2.1, st.recordStore⟩, z.2.2.1, z.2.2.2)
    | some zid =>
      let call := RemoteCall.recordList zid d.dnsNameASCII fam.recordType
      match remote.recordList zid d.dnsNameASCII fam.recordType with
      | none =>
        (none, ⟨z.2.1, st.recordStore⟩, z.2.2.1 ++ [call],
          z.2.2.2 ++ [.recordListFailed d.dnsNameASCII])
      | some raw =>
        match parseRecords parse raw with
        | none =>
          (none, ⟨z.2.1, st.recordStore⟩, z.2.2.1 ++ [call],
            z.2.2.2 ++ [.recordParseFailed d.dnsNameASCII])
        | some m =>
          (some m, ⟨z.2.1, aupsert st.recordStore (d.dnsNameASCII, fam) m⟩,
            z.2.2.1 ++ [call], z.2.2.2)

/-- Modelled from the spec: Create.  Resolve the zone, issue the remote
create; on success insert the new id into the Record Store entry when (and
only when) it is warm, and return the new id. -/
def CreateRecord (remote : Remote) (st : CFState) (d : Domain) (fam : Family)
    (addr : String) (ttl : Nat) (proxied : Bool) :
    Option String × CFState × List RemoteCall × List Msg :=
  let z := ZoneOfDomain remote st.zs d
  match z.1 with
  | none => (none, ⟨z.2.1, st.recordStore⟩, z.2.2.1, z.2.2.2)
  | some zid =>
    let call := RemoteCall.recordCreate zid d.dnsNameASCII fam.recordType addr ttl proxied
    match remote.recordCreate zid d.dnsNameASCII fam.recordType addr ttl proxied with
    | none =>
      (none, ⟨z.2.1, st.recordStore⟩, z.2.2.1 ++ [call],
        z.2.2.2 ++ [.recordCreateFailed d.dnsNameASCII])
    | some id =>
      let store :=
        match alookup st.recordStore (d.dnsNameASCII, fam) with
        | some m => aupsert st.recordStore (d.dnsNameASCII, fam) (aupsert m id addr)
        | none => st.recordStore
      (some id, ⟨z.2.1, store⟩, z.2.2.1 ++ [call], z.2.2.2)

/-- Modelled from the spec: Update.  Resolve the zone, issue the remote
update of the record id; on success remap the id in the Record Store entry
when it is warm. -/
def UpdateRecord (remote : Remote) (st : CFState) (d : Domain) (fam : Family)
    (id : String) (addr : String) :
    Bool × CFState × List RemoteCall × List Msg :=
  let z := ZoneOfDomain remote st.zs d
  match z.1 with
  | none => (false, ⟨z.2.1, st.recordStore⟩, z.2.2.1, z.2.2.2)
  | some zid =>
    let call := RemoteCall.recordUpdate zid id d.dnsNameASCII fam.recordType addr
    if remote.recordUpdate zid id d.dnsNameASCII fam.recordType addr then
      let store :=
        match alookup st.recordStore (d.dnsNameASCII, fam) with
        | some m => aupsert st.recordStore (d.dnsNameASCII, fam) (aupsert m id addr)
        | none => st.recordStore
      (true, ⟨z.2.1, store⟩, z.2.2.1 ++ [call], z.2.2.2)
    else
      (false, ⟨z.2.1, st.recordStore⟩, z.2.2.1 ++ [call],
        z.2.2.2 ++ [.recordUpdateFailed d.dnsNameASCII])

/-- Modelled from the spec: Delete.  Resolve the zone, issue the remote
delete of the record id; on success remove the id from the Record Store
entry when it is warm. -/
def DeleteRecord (remote : Remote) (st : CFState) (d : Domain) (fam : Family)
    (id : String) :
    Bool × CFState × List RemoteCall × List Msg :=
  let z := ZoneOfDomain remote st.zs d
  match z.1 with
  | none => (false, ⟨z.2.1, st.recordStore⟩, z.2.2.1, z.2.2.2)
  | some zid =>
    let call := RemoteCall.recordDelete zid id
    if remote.recordDelete zid id then
      let store :=
        match alookup st.recordStore (d.dnsNameASCII, fam) with
        | some m => aupsert st.recordStore (d.dnsNameASCII, fam) (aremove m id)
        | none => st.recordStore
      (true, ⟨z.2.1, store⟩, z.2.2.1 ++ [call], z.2.2.2)
    else
      (false, ⟨z.2.1, st.recordStore⟩, z.2.2.1 ++ [call],
        z.2.2.2 ++ [.recordDeleteFailed d.dnsNameASCII])

/-- Modelled from the spec: FlushCache clears the zone-resolution caches and
leaves the Record Store untouched. -/
def FlushCache (st : CFState) : CFState :=
  ⟨⟨[], []⟩, st.recordStore⟩

/-- The state of a freshly constructed handle: all caches empty. -/
def initialState : CFState := ⟨⟨[], []⟩, []⟩

/-! ### Construction-time authentication -/

/-- Outcome of the provider's token-verification endpoint. -/
inductive VerifyOutcome where
  | valid
  | invalid
  | networkError
deriving DecidableEq, Repr

/-- Modelled from the spec: the construction-time factory.  An empty token
fails before any remote call; otherwise the verification call is issued
exactly once and the factory yields a ready handle on success or a failure
reason (rejected token, network error). -/
def AuthNew (token : String) (outcome : VerifyOutcome) :
    Option CFState × List RemoteCall × List Msg :=
  if token = "" then (none, [], [.authEmptyToken])
  else
    match outcome with
    | .valid => (some initialState, [.tokenVerify], [])
    | .invalid => (none, [.tokenVerify], [.authTokenRejected])
    | .networkError => (none, [.tokenVerify], [.authNetworkFailed])

/-! ### Domain-expression predicates (is/sub) and label normalization

Modelled from the spec: domain arguments written in matching expressions are
stored as normalized (lower-cased, IDN-ASCII-encoded) label sequences; the
is and sub predicates compare these normalized forms.  The IDN ASCII form
of a non-ASCII label is the Punycode encoding (RFC 3492) prefixed with
xn--, which the concrete implementation obtains from its IDN library. -/

/-- Digit alphabet of the Punycode encoding: 0..25 map to a..z, 26..35 map
to the decimal digits. -/
def punyDigitChar (d : Nat) : Char :=
  if d < 26 then Char.ofNat (97 + d) else Char.ofNat (22 + d)

/-- Bias adaptation loop of RFC 3492 (division chain, fuel-bounded). -/
def punyAdaptLoop : Nat → Nat → Nat → Nat
  | 0, _, k => k
  | fuel + 1, delta, k =>
    if 455 < delta then punyAdaptLoop fuel (delta / 35) (k + 36)
    else k + (36 * delta) / (delta + 38)

/-- Bias adaptation of RFC 3492. -/
def punyAdapt (delta numpoints : Nat) (firsttime : Bool) : Nat :=
  let d1 := if firsttime then delta / 700 else delta / 2
  let d2 := d1 + d1 / numpoints
  punyAdaptLoop (d2 + 1) d2 0

/-- Variable-length integer encoding of one delta (fuel-bounded; the
quotient strictly decreases, so the fuel is never exhausted in practice). -/
def punyDigits : Nat → Nat → Nat → Nat → List Char
  | 0, _, _, _ => []
  | fuel + 1, q, k, bias =>
    let t := if k ≤ bias then 1 else if bias + 26 ≤ k then 26 else k - bias
    if q < t then [punyDigitChar q]
    else punyDigitChar (t + (q - t) % (36 - t)) :: punyDigits fuel ((q - t) / (36 - t)) (k + 36) bias

/-- Smallest code point of the list that is at least n (sentinel when none). -/
def minAbove (n : Nat) (cps : List Nat) : Nat :=
  (cps.filter fun c => n ≤ c).foldl Nat.min 2000000

/-- One pass over the code points for the current target code point m:
count smaller code points into delta and emit the digit block at each
occurrence of m.  State: (delta, bias, handled, output). -/
def punyInner (b m : Nat) (st : Nat × Nat × Nat × List Char) (cp : Nat) :
    Nat × Nat × Nat × List Char :=
  let (delta, bias, h, out) := st
  if cp < m then (delta + 1, bias, h, out)
  else if cp = m then
    (0, punyAdapt delta (h + 1) (h = b), h + 1, out ++ punyDigits (delta + 36) delta 36 bias)
  else (delta, bias, h, out)

/-- Outer encoding loop of RFC 3492 over ascending target code points. -/
def punyOuter (cps : List Nat) (b : Nat) : Nat → Nat → Nat × Nat × Nat × List Char → List Char
  | 0, _, st => st.2.2.2
  | fuel + 1, n, st =>
    let (delta, bias, h, out) := st
    if cps.length ≤ h then out
    else
      let m := minAbove n cps
      let st1 := cps.foldl (punyInner b m) (delta + (m - n) * (h + 1), bias, h, out)
      punyOuter cps b fuel (m + 1) (st1.1 + 1, st1.2.1, st1.2.2.1, st1.2.2.2)

/-- Punycode encoding of a label: the basic (ASCII) code points, a delimiter
when any are present, then the encoded deltas of the non-ASCII points. -/
def punycodeEncode (s : String) : String :=
  let cps := s.data.map Char.toNat
  let basics := cps.filter fun c => c < 128
  let head := basics.map Char.ofNat
  let head := if basics.length = 0 then head else head ++ ['-']
  String.mk (punyOuter cps basics.length (cps.length + 1) 128 (0, 72, basics.length, head))

/-- Lower-casing, character by character. -/
def lowerString (s : String) : String :=
  String.mk (s.data.map Char.toLower)

/-- Split a character sequence into dot-separated labels. -/
def splitLabelsAux : List Char → List Char → List String
  | [], acc => [String.mk acc.reverse]
  | c :: cs, acc =>
    if c = '.' then String.mk acc.reverse :: splitLabelsAux cs []
    else splitLabelsAux cs (c :: acc)

/-- Split a raw name string into its labels. -/
def splitLabels (s : String) : List String :=
  splitLabelsAux s.data []

/-- Modelled from the spec: label normalization, lower-casing followed by
IDN ASCII encoding of non-ASCII labels (already-ASCII labels, including
xn-- forms, pass through lower-cased). -/
def normalizeLabel (s : String) : String :=
  let lower := lowerString s
  if lower.data.all (fun c => c.toNat < 128) then lower
  else "xn--" ++ punycodeEncode lower

/-- Modelled from the spec: parse a domain argument of a matching
expression into its normalized Domain value (a leading star-dot selects the
wildcard shape; labels are split on dots and normalized). -/
def parseDomain (s : String) : Domain :=
  match s.data with
  | '*' :: '.' :: rest => .Wildcard ((splitLabelsAux rest []).map normalizeLabel)
  | _ => .FQDN ((splitLabels s).map normalizeLabel)

/-- Modelled from the spec: the is predicate holds exactly on the one
domain equal to the (normalized) argument. -/
def isPredicate (arg : String) (d : Domain) : Bool :=
  d = parseDomain arg

/-- Modelled from the spec: the sub predicate holds on proper subdomains
of the (normalized) argument; a wildcard counts as under its own apex. -/
def subPredicate (arg : String) (d : Domain) : Bool :=
  let base := (parseDomain arg).labelsOf
  match d with
  | .FQDN ls => !(ls = base : Bool) && base.isSuffixOf ls
  | .Wildcard ls => base.isSuffixOf ls

/-! ### Basic lemmas about the zone machinery -/

/-- A candidate name on which a (cache-mediated) query yields zero eligible
zones, so that the suffix descent continues past it. -/
def zeroEligible (remote : Remote) (zc : List (String × List Zone)) (n : String) : Prop :=
  ∃ zs, zoneView remote zc n = some zs ∧ zs.filter zoneEligible = []

theorem zoneLookup_fst (remote : Remote) (zc : List (String × List Zone)) (n : String) :
    (zoneLookup remote zc n).1 = zoneView remote zc n := by
  cases h : alookup zc n with
  | some zs => simp [zoneLookup, zoneView, h]
  | none => cases h2 : remote.zones n <;> simp [zoneLookup, zoneView, h, h2]

theorem zoneLookup_view (remote : Remote) (zc : List (String × List Zone)) (n m : String) :
    zoneView remote ((zoneLookup remote zc n).2.1) m = zoneView remote zc m := by
  cases h : alookup zc n with
  | some zs => simp [zoneLookup, h]
  | none =>
    cases h2 : remote.zones n with
    | some zs =>
      by_cases hm : m = n
      · subst hm; simp [zoneLookup, zoneView, h, h2, alookup_aupsert_self]
      · simp [zoneLookup, zoneView, h, h2, alookup_aupsert_other _ _ _ _ hm]
    | none => simp [zoneLookup, h, h2]

theorem zoneLookup_calls (remote : Remote) (zc : List (String × List Zone)) (n : String) :
    (zoneLookup remote zc n).2.2.1 = [] ∨
    (zoneLookup remote zc n).2.2.1 = [RemoteCall.zoneQuery n] := by
  cases h : alookup zc n with
  | some zs => left; simp [zoneLookup, h]
  | none => right; cases h2 : remote.zones n <;> simp [zoneLookup, h, h2]

theorem zoneSearch_view (remote : Remote) :
    ∀ (names : List String) (zc : List (String × List Zone)) (m : String),
      zoneView remote ((zoneSearch remote names zc).2.1) m = zoneView remote zc m := by
  intro names
  induction names with
  | nil => intro zc m; simp [zoneSearch]
  | cons name rest ih =>
    intro zc m
    cases h1 : (zoneLookup remote zc name).1 with
    | none =>
      have : (zoneSearch remote (name :: rest) zc).2.1 = (zoneLookup remote zc name).2.1 := by
        simp [zoneSearch, h1]
      rw [this, zoneLookup_view]
    | some zs =>
      rcases hf : zs.filter zoneEligible with _ | ⟨z1, _ | ⟨z2, tl2⟩⟩
      · have : (zoneSearch remote (name :: rest) zc).2.1
            = (zoneSearch remote rest ((zoneLookup remote zc name).2.1)).2.1 := by
          simp [zoneSearch, h1, hf]
        rw [this, ih, zoneLookup_view]
      · have : (zoneSearch remote (name :: rest) zc).2.1 = (zoneLookup remote zc name).2.1 := by
          simp [zoneSearch, h1, hf]
        rw [this, zoneLookup_view]
      · have : (zoneSearch remote (name :: rest) zc).2.1 = (zoneLookup remote zc name).2.1 := by
          simp [zoneSearch, h1, hf]
        rw [this, zoneLookup_view]

theorem zoneSearch_calls_length (remote : Remote) :
    ∀ (names : List String) (zc : List (String × List Zone)),
      (zoneSearch remote names zc).2.2.1.length ≤ names.length := by
  intro names
  induction names with
  | nil => intro zc; simp [zoneSearch]
  | cons name rest ih =>
    intro zc
    have hlk : (zoneLookup remote zc name).2.2.1.length ≤ 1 := by
      rcases zoneLookup_calls remote zc name with h | h <;> simp [h]
    cases h1 : (zoneLookup remote zc name).1 with
    | none =>
      have heq : (zoneSearch remote (name :: rest) zc).2.2.1
          = (zoneLookup remote zc name).2.2.1 := by
        simp [zoneSearch, h1]
      rw [heq]
      simp only [List.length_cons]
      omega
    | some zs =>
      rcases hf : zs.filter zoneEligible with _ | ⟨z1, _ | ⟨z2, tl2⟩⟩
      · have heq : (zoneSearch remote (name :: rest) zc).2.2.1
            = (zoneLookup remote zc name).2.2.1
              ++ (zoneSearch remote rest ((zoneLookup remote zc name).2.1)).2.2.1 := by
          simp [zoneSearch, h1, hf]
        rw [heq]
        have := ih ((zoneLookup remote zc name).2.1)
        simp only [List.length_append, List.length_cons]
        omega
      · have heq : (zoneSearch remote (name :: rest) zc).2.2.1
            = (zoneLookup remote zc name).2.2.1 := by
          simp [zoneSearch, h1, hf]
        rw [heq]
        simp only [List.length_cons]
        omega
      · have heq : (zoneSearch remote (name :: rest) zc).2.2.1
            = (zoneLookup remote zc name).2.2.1 := by
          simp [zoneSearch, h1, hf]
        rw [heq]
        simp only [List.length_cons]
        omega

theorem zoneSearch_exhausted (remote : Remote) :
    ∀ (names : List String) (zc : List (String × List Zone)),
      (∀ n ∈ names, zeroEligible remote zc n) →
      (zoneSearch remote names zc).1 = .exhausted := by
  intro names
  induction names with
  | nil => intro zc _; simp [zoneSearch]
  | cons name rest ih =>
    intro zc h
    obtain ⟨zs, hview, hfilter⟩ := h name (by simp)
    have h1 : (zoneLookup remote zc name).1 = some zs :=
      (zoneLookup_fst remote zc name).trans hview
    have heq : (zoneSearch remote (name :: rest) zc).1
        = (zoneSearch remote rest ((zoneLookup remote zc name).2.1)).1 := by
      simp [zoneSearch, h1, hfilter]
    rw [heq]
    apply ih
    intro n hn
    obtain ⟨zs', hv', hf'⟩ := h n (by simp [hn])
    exact ⟨zs', (zoneLookup_view remote zc name n).trans hv', hf'⟩

theorem zoneSearch_ambiguous (remote : Remote) :
    ∀ (pre : List String) (zc : List (String × List Zone)) (c : String)
      (post : List String) (zs : List Zone),
      (∀ n ∈ pre, zeroEligible remote zc n) →
      zoneView remote zc c = some zs →
      2 ≤ (zs.filter zoneEligible).length →
      (zoneSearch remote (pre ++ c :: post) zc).1 = .ambiguous c ∧
      Msg.zoneAmbiguous c ∈ (zoneSearch remote (pre ++ c :: post) zc).2.2.2 ∧
      ∀ x ∈ (zoneSearch remote (pre ++ c :: post) zc).2.2.1,
        ∃ k, x = RemoteCall.zoneQuery k ∧ k ∈ pre ++ [c] := by
  intro pre
  induction pre with
  | nil =>
    intro zc c post zs _ hview hlen
    have h1 : (zoneLookup remote zc c).1 = some zs :=
      (zoneLookup_fst remote zc c).trans hview
    rcases hf : zs.filter zoneEligible with _ | ⟨z1, _ | ⟨z2, tl2⟩⟩
    · rw [hf] at hlen; simp at hlen
    · rw [hf] at hlen; simp at hlen
    refine ⟨by simp [zoneSearch, h1, hf], by simp [zoneSearch, h1, hf], ?_⟩
    have hcalls : (zoneSearch remote ([] ++ c :: post) zc).2.2.1
        = (zoneLookup remote zc c).2.2.1 := by
      simp [zoneSearch, h1, hf]
    rw [hcalls]
    intro x hx
    rcases zoneLookup_calls remote zc c with h | h
    · rw [h] at hx; cases hx
    · rw [h] at hx
      simp at hx
      exact ⟨c, hx, by simp⟩
  | cons p pre' ih =>
    intro zc c post zs hpre hview hlen
    obtain ⟨zsp, hvp, hfp⟩ := hpre p (by simp)
    have h1 : (zoneLookup remote zc p).1 = some zsp :=
      (zoneLookup_fst remote zc p).trans hvp
    have houtcome : (zoneSearch remote ((p :: pre') ++ c :: post) zc).1
        = (zoneSearch remote (pre' ++ c :: post) ((zoneLookup remote zc p).2.1)).1 := by
      simp [zoneSearch, h1, hfp]
    have hcalls : (zoneSearch remote ((p :: pre') ++ c :: post) zc).2.2.1
        = (zoneLookup remote zc p).2.2.1
          ++ (zoneSearch remote (pre' ++ c :: post) ((zoneLookup remote zc p).2.1)).2.2.1 := by
      simp [zoneSearch, h1, hfp]
    have hmsgs : Msg.zoneAmbiguous c
          ∈ (zoneSearch remote (pre' ++ c :: post) ((zoneLookup remote zc p).2.1)).2.2.2 →
        Msg.zoneAmbiguous c ∈ (zoneSearch remote ((p :: pre') ++ c :: post) zc).2.2.2 := by
      intro hmem
      have heq : (zoneSearch remote ((p :: pre') ++ c :: post) zc).2.2.2
          = (zoneLookup remote zc p).2.2.2
            ++ ((zsp.filter fun z => !zoneEligible z).map fun z => Msg.zoneSkipped p z.status)
            ++ (zoneSearch remote (pre' ++ c :: post) ((zoneLookup remote zc p).2.1)).2.2.2 := by
        simp [zoneSearch, h1, hfp]
      rw [heq]
      simp [hmem]
    obtain ⟨ho, hm, hc⟩ := ih ((zoneLookup remote zc p).2.1) c post zs
      (fun n hn => by
        obtain ⟨zs', hv', hf'⟩ := hpre n (by simp [hn])
        exact ⟨zs', (zoneLookup_view remote zc p n).trans hv', hf'⟩)
      ((zoneLookup_view remote zc p c).trans hview) hlen
    refine ⟨by rw [houtcome]; exact ho, hmsgs hm, ?_⟩
    rw [hcalls]
    intro x hx
    rcases List.mem_append.mp hx with hx | hx
    · rcases zoneLookup_calls remote zc p with h | h
      · rw [h] at hx; cases hx
      · rw [h] at hx
        simp at hx
        exact ⟨p, hx, by simp⟩
    · obtain ⟨k, hk, hkmem⟩ := hc x hx
      refine ⟨k, hk, ?_⟩
      simp only [List.cons_append, List.mem_cons]
      right
      exact hkmem

theorem zoneSearch_single (remote : Remote) :
    ∀ (pre : List String) (zc : List (String × List Zone)) (c : String)
      (post : List String) (zs : List Zone) (z : Zone),
      (∀ n ∈ pre, zeroEligible remote zc n) →
      zoneView remote zc c = some zs →
      zs.filter zoneEligible = [z] →
      (zoneSearch remote (pre ++ c :: post) zc).1 = .found z.id ∧
      ∀ x ∈ (zoneSearch remote (pre ++ c :: post) zc).2.2.1,
        ∃ k, x = RemoteCall.zoneQuery k ∧ k ∈ pre ++ [c] := by
  intro pre
  induction pre with
  | nil =>
    intro zc c post zs z _ hview hf
    have h1 : (zoneLookup remote zc c).1 = some zs :=
      (zoneLookup_fst remote zc c).trans hview
    refine ⟨by simp [zoneSearch, h1, hf], ?_⟩
    have hcalls : (zoneSearch remote ([] ++ c :: post) zc).2.2.1
        = (zoneLookup remote zc c).2.2.1 := by
      simp [zoneSearch, h1, hf]
    rw [hcalls]
    intro x hx
    rcases zoneLookup_calls remote zc c with h | h
    · rw [h] at hx; cases hx
    · rw [h] at hx
      simp at hx
      exact ⟨c, hx, by simp⟩
  | cons p pre' ih =>
    intro zc c post zs z hpre hview hf
    obtain ⟨zsp, hvp, hfp⟩ := hpre p (by simp)
    have h1 : (zoneLookup remote zc p).1 = some zsp :=
      (zoneLookup_fst remote zc p).trans hvp
    have houtcome : (zoneSearch remote ((p :: pre') ++ c :: post) zc).1
        = (zoneSearch remote (pre' ++ c :: post) ((zoneLookup remote zc p).2.1)).1 := by
      simp [zoneSearch, h1, hfp]
    have hcalls : (zoneSearch remote ((p :: pre') ++ c :: post) zc).2.2.1
        = (zoneLookup remote zc p).2.2.1
          ++ (zoneSearch remote (pre' ++ c :: post) ((zoneLookup remote zc p).2.1)).2.2.1 := by
      simp [zoneSearch, h1, hfp]
    obtain ⟨ho, hc⟩ := ih ((zoneLookup remote zc p).2.1) c post zs z
      (fun n hn => by
        obtain ⟨zs', hv', hf'⟩ := hpre n (by simp [hn])
        exact ⟨zs', (zoneLookup_view remote zc p n).trans hv', hf'⟩)
      ((zoneLookup_view remote zc p c).trans hview) hf
    refine ⟨by rw [houtcome]; exact ho, ?_⟩
    rw [hcalls]
    intro x hx
    rcases List.mem_append.mp hx with hx | hx
    · rcases zoneLookup_calls remote zc p with h | h
      · rw [h] at hx; cases hx
      · rw [h] at hx
        simp at hx
        exact ⟨p, hx, by simp⟩
    · obtain ⟨k, hk, hkmem⟩ := hc x hx
      refine ⟨k, hk, ?_⟩
      simp only [List.cons_append, List.mem_cons]
      right
      exact hkmem

theorem zoneSearch_found_source (remote : Remote) :
    ∀ (names : List String) (zc : List (String × List Zone)) (id : String),
      (zoneSearch remote names zc).1 = .found id →
      ∃ n ∈ names, ∃ zs z, zoneView remote zc n = some zs ∧
        z ∈ zs.filter zoneEligible ∧ z.id = id := by
  intro names
  induction names with
  | nil => intro zc id h; simp [zoneSearch] at h
  | cons name rest ih =>
    intro zc id h
    cases h1 : (zoneLookup remote zc name).1 with
    | none => rw [show (zoneSearch remote (name :: rest) zc).1 = .failed name by
        simp [zoneSearch, h1]] at h; cases h
    | some zs =>
      rcases hf : zs.filter zoneEligible with _ | ⟨z1, _ | ⟨z2, tl2⟩⟩
      · have h' : (zoneSearch remote rest ((zoneLookup remote zc name).2.1)).1 = .found id := by
          rw [show (zoneSearch remote (name :: rest) zc).1
              = (zoneSearch remote rest ((zoneLookup remote zc name).2.1)).1 by
            simp [zoneSearch, h1, hf]] at h
          exact h
        obtain ⟨n, hn, zs', z, hv, hz, hid⟩ := ih _ _ h'
        exact ⟨n, by simp [hn], zs', z,
          (zoneLookup_view remote zc name n).symm.trans hv, hz, hid⟩
      · have hid : z1.id = id := by
          have heq : (zoneSearch remote (name :: rest) zc).1 = .found z1.id := by
            simp [zoneSearch, h1, hf]
          rw [heq] at h
          cases h
          rfl
        exact ⟨name, by simp, zs, z1,
          (zoneLookup_fst remote zc name).symm.trans h1, by simp [hf], hid⟩
      · rw [show (zoneSearch remote (name :: rest) zc).1 = .ambiguous name by
          simp [zoneSearch, h1, hf]] at h
        cases h

/-! ### The candidate list has no duplicate names -/

theorem strlen_append (a b : String) : (a ++ b).length = a.length + b.length :=
  String.length_append a b

theorem joinLabels_length_lt (l : String) (ls : List String) (h : ls ≠ []) :
    (joinLabels ls).length < (joinLabels (l :: ls)).length := by
  cases ls with
  | nil => exact absurd rfl h
  | cons l2 ls2 =>
    have heq : joinLabels (l :: l2 :: ls2) = l ++ "." ++ joinLabels (l2 :: ls2) := by
      simp [joinLabels]
    rw [heq, strlen_append, strlen_append]
    have : ("." : String).length = 1 := by decide
    omega

theorem mem_suffixNames_length :
    ∀ (ls : List String) (s : String), s ∈ suffixNames ls →
      s.length ≤ (joinLabels ls).length := by
  intro ls
  induction ls with
  | nil => intro s h; simp [suffixNames] at h
  | cons l ls ih =>
    intro s h
    simp only [suffixNames, List.mem_cons] at h
    rcases h with rfl | h
    · exact le_refl _
    · cases ls with
      | nil => simp [suffixNames] at h
      | cons l2 ls2 =>
        exact (ih s h).trans (le_of_lt (joinLabels_length_lt l _ (by simp)))

theorem suffixNames_nodup : ∀ ls : List String, (suffixNames ls).Nodup := by
  intro ls
  induction ls with
  | nil => simp [suffixNames]
  | cons l ls ih =>
    simp only [suffixNames, List.nodup_cons]
    refine ⟨?_, ih⟩
    intro hmem
    have hle := mem_suffixNames_length ls _ hmem
    cases ls with
    | nil => simp [suffixNames] at hmem
    | cons l2 ls2 =>
      have := joinLabels_length_lt l (l2 :: ls2) (by simp)
      omega

theorem candidates_nodup (d : Domain) : d.candidates.Nodup := by
  cases d <;> exact suffixNames_nodup _

theorem suffixNames_length : ∀ ls : List String, (suffixNames ls).length = ls.length := by
  intro ls
  induction ls with
  | nil => rfl
  | cons l ls ih => simp [suffixNames, ih]

theorem candidates_length (d : Domain) : d.candidates.length = d.numLabels := by
  cases d <;> simp [Domain.candidates, Domain.numLabels, Domain.labelsOf, suffixNames_length]

theorem ZoneOfDomain_calls_of_cold (remote : Remote) (zst : ZState) (d : Domain)
    (hmemo : alookup zst.zoneMemo d.dnsNameASCII = none) :
    (ZoneOfDomain remote zst d).2.2.1
      = (zoneSearch remote d.candidates zst.zoneCache).2.2.1 := by
  cases ho : (zoneSearch remote d.candidates zst.zoneCache).1 <;>
    simp [ZoneOfDomain, hmemo, ho]

/-! ### Concrete environments used by the witnesses and counterexamples -/

/-- A remote provider that is entirely unreachable. -/
def remoteDown : Remote := {
  zones := fun _ => none
  recordList := fun _ _ _ => none
  recordCreate := fun _ _ _ _ _ _ => none
  recordUpdate := fun _ _ _ _ _ => false
  recordDelete := fun _ _ => false
}

/-- A remote provider on which every zone query succeeds with no zones. -/
def remoteEmptyZones : Remote := { remoteDown with zones := fun _ => some [] }

/-- A remote provider with one active zone named test.org carrying one AAAA
record at sub.test.org; mutations succeed, created records get id record2. -/
def remoteOneZone : Remote := {
  zones := fun n => if n = "test.org" then some [⟨"zone0", "active"⟩] else some []
  recordList := fun zid n t =>
    if zid = "zone0" ∧ n = "sub.test.org" ∧ t = "AAAA" then some [("record1", "::1")]
    else none
  recordCreate := fun _ _ _ _ _ _ => some "record2"
  recordUpdate := fun _ _ _ _ _ => true
  recordDelete := fun _ _ => true
}

/-- A remote provider with two active zones both named test.org. -/
def remoteTwoZones : Remote :=
  { remoteDown with
    zones := fun n =>
      if n = "test.org" then some [⟨"zoneA", "active"⟩, ⟨"zoneB", "active"⟩] else some [] }

/-- A remote provider whose only zone named test.org has status deleted. -/
def remoteDeletedZone : Remote :=
  { remoteDown with
    zones := fun n => if n = "test.org" then some [⟨"zone0", "deleted"⟩] else some [] }

/-- A remote provider like remoteOneZone whose record listing contains one
record whose stored content is not an address. -/
def remoteBadRecord : Remote :=
  { remoteOneZone with
    recordList := fun zid n t =>
      if zid = "zone0" ∧ n = "sub.test.org" ∧ t = "AAAA" then
        some [("record1", "::1"), ("record2", "NOT AN IP")]
      else none }

/-- An address parser that accepts everything except the marker string. -/
def parseMost : String → Option String :=
  fun s => if s = "NOT AN IP" then none else some s

/-! ### The claims -/

/-- C2: FlushCache clears only the Zone Cache (and the resolution memo that
rides with it) and leaves the Record Store unchanged; after FlushCache a
zone resolution behaves exactly like a cold resolution (identical remote
queries), while a warm Record Store entry still answers ListRecords with
zero remote calls. -/
theorem claim2_flushCache_zone_only (st : CFState) (remote : Remote)
    (parse : String → Option String) (d : Domain) (fam : Family)
    (m : List (String × String)) :
    (FlushCache st).recordStore = st.recordStore
    ∧ ZoneOfDomain remote (FlushCache st).zs d = ZoneOfDomain remote initialState.zs d
    ∧ (alookup st.recordStore (d.dnsNameASCII, fam) = some m →
        ListRecords remote parse (FlushCache st) d fam = (some m, FlushCache st, [], [])) := by
  refine ⟨rfl, rfl, ?_⟩
  intro hw
  have hw2 : alookup (FlushCache st).recordStore (d.dnsNameASCII, fam) = some m := hw
  simp [ListRecords, hw2]

/-- Witness for C2 at a concrete state: a flushed handle with a warm record
entry for sub.test.org answers List from the store with zero remote calls. -/
theorem claim2_witness :
    ListRecords remoteDown parseMost
      (FlushCache ⟨⟨[("test.org", [⟨"zone0", "active"⟩])], [("sub.test.org", "zone0")]⟩,
        [(("sub.test.org", Family.v6), [("record1", "::1")])]⟩)
      (Domain.FQDN ["sub", "test", "org"]) Family.v6
      = (some [("record1", "::1")],
         FlushCache ⟨⟨[("test.org", [⟨"zone0", "active"⟩])], [("sub.test.org", "zone0")]⟩,
           [(("sub.test.org", Family.v6), [("record1", "::1")])]⟩, [], []) :=
  (claim2_flushCache_zone_only
    ⟨⟨[("test.org", [⟨"zone0", "active"⟩])], [("sub.test.org", "zone0")]⟩,
      [(("sub.test.org", Family.v6), [("record1", "::1")])]⟩
    remoteDown parseMost (Domain.FQDN ["sub", "test", "org"]) Family.v6
    [("record1", "::1")]).2.2 (by decide)

/-- C7: Zone Cache lookup on a populated key returns the stored result with
zero remote calls (also when the stored result is empty), and a lookup whose
remote population fails reports the failure, issues the one query, and
leaves the entry unpopulated so that a retry queries the remote again. -/
theorem claim7_zone_cache_lookup (remote : Remote) (zc : List (String × List Zone))
    (n : String) (zs : List Zone) :
    (alookup zc n = some zs → zoneLookup remote zc n = (some zs, zc, [], []))
    ∧ (alookup zc n = none → remote.zones n = none →
        zoneLookup remote zc n = (none, zc, [RemoteCall.zoneQuery n], [Msg.zoneLookupFailed n])
        ∧ alookup (zoneLookup remote zc n).2.1 n = none) := by
  constructor
  · intro h
    simp [zoneLookup, h]
  · intro h1 h2
    constructor
    · simp [zoneLookup, h1, h2]
    · simp [zoneLookup, h1, h2]

/-- Witness for C7: a populated empty entry answers from the cache with no
queries, and a failing population on a cold key leaves the state unchanged
while reporting the failure. -/
theorem claim7_witness :
    zoneLookup remoteDown [("test.org", [])] "test.org"
      = (some [], [("test.org", [])], [], [])
    ∧ zoneLookup remoteDown [] "test.org"
      = (none, [], [RemoteCall.zoneQuery "test.org"], [Msg.zoneLookupFailed "test.org"]) :=
  ⟨(claim7_zone_cache_lookup remoteDown [("test.org", [])] "test.org" []).1 (by decide),
   ((claim7_zone_cache_lookup remoteDown [] "test.org" []).2 (by decide) (by decide)).1⟩

/-- C8: the construction-time factory fails before any remote call on an
empty token, otherwise performs the token-verification call exactly once and
returns a ready handle exactly when the provider accepts the token, failing
(with no handle) on a rejected token or a network error; being a total
function of its inputs it never panics. -/
theorem claim8_auth_new (token : String) (outcome : VerifyOutcome) :
    (token = "" → AuthNew token outcome = (none, [], [Msg.authEmptyToken]))
    ∧ (token ≠ "" →
        (AuthNew token outcome).2.1 = [RemoteCall.tokenVerify]
        ∧ ((AuthNew token outcome).1 = some initialState ↔ outcome = .valid)
        ∧ (outcome ≠ .valid → (AuthNew token outcome).1 = none)) := by
  constructor
  · intro h
    simp [AuthNew, h]
  · intro h
    cases outcome <;> simp [AuthNew, h]

/-- Witness for C8: the factory at a concrete empty token, and at a concrete
valid and a concrete rejected verification. -/
theorem claim8_witness :
    AuthNew "" VerifyOutcome.valid = (none, [], [Msg.authEmptyToken])
    ∧ (AuthNew "token123" VerifyOutcome.valid).2.1 = [RemoteCall.tokenVerify]
    ∧ (AuthNew "token123" VerifyOutcome.invalid).1 = none :=
  ⟨(claim8_auth_new "" VerifyOutcome.valid).1 rfl,
   ((claim8_auth_new "token123" VerifyOutcome.valid).2 (by decide)).1,
   ((claim8_auth_new "token123" VerifyOutcome.invalid).2 (by decide)).2.2 (by decide)⟩

/-- C1: on a warm Record Store entry, a successful Create, Update, or Delete
patches the entry in place, so the next ListRecords call issues zero remote
calls and returns the previous map changed at exactly the mutated id and
nowhere else. -/
theorem claim1_mutation_patches_warm_store (remote : Remote)
    (parse : String → Option String) (st : CFState) (d : Domain) (fam : Family)
    (m0 : List (String × String))
    (hwarm : alookup st.recordStore (d.dnsNameASCII, fam) = some m0) :
    (∀ addr ttl proxied id,
      (CreateRecord remote st d fam addr ttl proxied).1 = some id →
      ListRecords remote parse (CreateRecord remote st d fam addr ttl proxied).2.1 d fam
        = (some (aupsert m0 id addr),
           (CreateRecord remote st d fam addr ttl proxied).2.1, [], [])
      ∧ ∀ r, alookup (aupsert m0 id addr) r
          = if r = id then some addr else alookup m0 r)
    ∧ (∀ id addr,
      (UpdateRecord remote st d fam id addr).1 = true →
      ListRecords remote parse (UpdateRecord remote st d fam id addr).2.1 d fam
        = (some (aupsert m0 id addr), (UpdateRecord remote st d fam id addr).2.1, [], [])
      ∧ ∀ r, alookup (aupsert m0 id addr) r
          = if r = id then some addr else alookup m0 r)
    ∧ (∀ id,
      (DeleteRecord remote st d fam id).1 = true →
      ListRecords remote parse (DeleteRecord remote st d fam id).2.1 d fam
        = (some (aremove m0 id), (DeleteRecord remote st d fam id).2.1, [], [])
      ∧ ∀ r, alookup (aremove m0 id) r = if r = id then none else alookup m0 r) := by
  refine ⟨?_, ?_, ?_⟩
  · intro addr ttl proxied id hok
    cases hz : (ZoneOfDomain remote st.zs d).1 with
    | none =>
      have h1 : (CreateRecord remote st d fam addr ttl proxied).1 = none := by
        simp [CreateRecord, hz]
      rw [h1] at hok
      simp at hok
    | some zid =>
      cases hc : remote.recordCreate zid d.dnsNameASCII fam.recordType addr ttl proxied with
      | none =>
        have h1 : (CreateRecord remote st d fam addr ttl proxied).1 = none := by
          simp [CreateRecord, hz, hc]
        rw [h1] at hok
        simp at hok
      | some nid =>
        have h1 : (CreateRecord remote st d fam addr ttl proxied).1 = some nid := by
          simp [CreateRecord, hz, hc]
        rw [h1] at hok
        obtain rfl : nid = id := Option.some.inj hok
        have hstate : (CreateRecord remote st d fam addr ttl proxied).2.1
            = ⟨(ZoneOfDomain remote st.zs d).2.1,
               aupsert st.recordStore (d.dnsNameASCII, fam) (aupsert m0 nid addr)⟩ := by
          simp [CreateRecord, hz, hc, hwarm]
        rw [hstate]
        refine ⟨?_, fun r => alookup_aupsert m0 nid addr r⟩
        have hw2 : alookup
            (aupsert st.recordStore (d.dnsNameASCII, fam) (aupsert m0 nid addr))
            (d.dnsNameASCII, fam) = some (aupsert m0 nid addr) :=
          alookup_aupsert_self _ _ _
        simp [ListRecords, hw2]
  · intro id addr hok
    cases hz : (ZoneOfDomain remote st.zs d).1 with
    | none =>
      have h1 : (UpdateRecord remote st d fam id addr).1 = false := by
        simp [UpdateRecord, hz]
      rw [h1] at hok
      simp at hok
    | some zid =>
      cases hu : remote.recordUpdate zid id d.dnsNameASCII fam.recordType addr with
      | false =>
        have h1 : (UpdateRecord remote st d fam id addr).1 = false := by
          simp [UpdateRecord, hz, hu]
        rw [h1] at hok
        simp at hok
      | true =>
        have hstate : (UpdateRecord remote st d fam id addr).2.1
            = ⟨(ZoneOfDomain remote st.zs d).2.1,
               aupsert st.recordStore (d.dnsNameASCII, fam) (aupsert m0 id addr)⟩ := by
          simp [UpdateRecord, hz, hu, hwarm]
        rw [hstate]
        refine ⟨?_, fun r => alookup_aupsert m0 id addr r⟩
        have hw2 : alookup
            (aupsert st.recordStore (d.dnsNameASCII, fam) (aupsert m0 id addr))
            (d.dnsNameASCII, fam) = some (aupsert m0 id addr) :=
          alookup_aupsert_self _ _ _
        simp [ListRecords, hw2]
  · intro id hok
    cases hz : (ZoneOfDomain remote st.zs d).1 with
    | none =>
      have h1 : (DeleteRecord remote st d fam id).1 = false := by
        simp [DeleteRecord, hz]
      rw [h1] at hok
      simp at hok
    | some zid =>
      cases hu : remote.recordDelete zid id with
      | false =>
        have h1 : (DeleteRecord remote st d fam id).1 = false := by
          simp [DeleteRecord, hz, hu]
        rw [h1] at hok
        simp at hok
      | true =>
        have hstate : (DeleteRecord remote st d fam id).2.1
            = ⟨(ZoneOfDomain remote st.zs d).2.1,
               aupsert st.recordStore (d.dnsNameASCII, fam) (aremove m0 id)⟩ := by
          simp [DeleteRecord, hz, hu, hwarm]
        rw [hstate]
        refine ⟨?_, fun r => alookup_aremove m0 id r⟩
        have hw2 : alookup
            (aupsert st.recordStore (d.dnsNameASCII, fam) (aremove m0 id))
            (d.dnsNameASCII, fam) = some (aremove m0 id) :=
          alookup_aupsert_self _ _ _
        simp [ListRecords, hw2]

/-- Witness for C1: on a warm entry for sub.test.org, a successful Update of
record1 to address ::2 makes the next List answer from the patched store
with zero remote calls. -/
theorem claim1_witness :
    ListRecords remoteOneZone parseMost
      (UpdateRecord remoteOneZone
        ⟨⟨[], []⟩, [(("sub.test.org", Family.v6), [("record1", "::1")])]⟩
        (Domain.FQDN ["sub", "test", "org"]) Family.v6 "record1" "::2").2.1
      (Domain.FQDN ["sub", "test", "org"]) Family.v6
      = (some (aupsert [("record1", "::1")] "record1" "::2"),
         (UpdateRecord remoteOneZone
           ⟨⟨[], []⟩, [(("sub.test.org", Family.v6), [("record1", "::1")])]⟩
           (Domain.FQDN ["sub", "test", "org"]) Family.v6 "record1" "::2").2.1, [], []) :=
  (((claim1_mutation_patches_warm_store remoteOneZone parseMost
      ⟨⟨[], []⟩, [(("sub.test.org", Family.v6), [("record1", "::1")])]⟩
      (Domain.FQDN ["sub", "test", "org"]) Family.v6 [("record1", "::1")]
      (by decide)).2.1) "record1" "::2" (by decide)).1

/-- C3: a candidate with two or more eligible zones aborts resolution
immediately with the ambiguity error; no zone query is issued for any
shorter candidate suffix. -/
theorem claim3_ambiguity_aborts (remote : Remote) (zst : ZState) (d : Domain)
    (pre : List String) (c : String) (post : List String) (zs : List Zone)
    (hmemo : alookup zst.zoneMemo d.dnsNameASCII = none)
    (hsplit : d.candidates = pre ++ c :: post)
    (hpre : ∀ n ∈ pre, zeroEligible remote zst.zoneCache n)
    (hview : zoneView remote zst.zoneCache c = some zs)
    (hcount : 2 ≤ (zs.filter zoneEligible).length) :
    (ZoneOfDomain remote zst d).1 = none
    ∧ Msg.zoneAmbiguous c ∈ (ZoneOfDomain remote zst d).2.2.2
    ∧ ∀ n ∈ post, RemoteCall.zoneQuery n ∉ (ZoneOfDomain remote zst d).2.2.1 := by
  obtain ⟨ho, hm, hcalls⟩ :=
    zoneSearch_ambiguous remote pre zst.zoneCache c post zs hpre hview hcount
  rw [← hsplit] at ho hm hcalls
  have heq2 : (ZoneOfDomain remote zst d).2.2.2
      = (zoneSearch remote d.candidates zst.zoneCache).2.2.2 := by
    simp [ZoneOfDomain, hmemo, ho]
  refine ⟨by simp [ZoneOfDomain, hmemo, ho], by rw [heq2]; exact hm, ?_⟩
  rw [ZoneOfDomain_calls_of_cold remote zst d hmemo]
  intro n hn hquery
  obtain ⟨k, hk, hkmem⟩ := hcalls _ hquery
  injection hk with hk2
  subst hk2
  have hnodup := candidates_nodup d
  rw [hsplit, List.nodup_append] at hnodup
  obtain ⟨-, hnd2, hdisj⟩ := hnodup
  rcases List.mem_append.mp hkmem with hk1 | hk1
  · exact hdisj hk1 (List.mem_cons_of_mem _ hn)
  · have hc : n = c := by simpa using hk1
    subst hc
    exact (List.nodup_cons.mp hnd2).1 hn

/-- Witness for C3: with two active zones named test.org, resolving
sub.test.org fails as ambiguous (and in particular no query for the shorter
candidate org is issued, per the theorem applied here). -/
theorem claim3_witness :
    (ZoneOfDomain remoteTwoZones ⟨[], []⟩ (Domain.FQDN ["sub", "test", "org"])).1 = none
    ∧ Msg.zoneAmbiguous "test.org"
        ∈ (ZoneOfDomain remoteTwoZones ⟨[], []⟩ (Domain.FQDN ["sub", "test", "org"])).2.2.2 := by
  have h := claim3_ambiguity_aborts remoteTwoZones ⟨[], []⟩
    (Domain.FQDN ["sub", "test", "org"])
    ["sub.test.org"] "test.org" ["org"] [⟨"zoneA", "active"⟩, ⟨"zoneB", "active"⟩]
    (by decide) (by decide)
    (by
      intro n hn
      simp at hn
      subst hn
      exact ⟨[], by decide, by decide⟩)
    (by decide) (by decide)
  exact ⟨h.1, h.2.1⟩

/-- C4 (amended): for a literal domain with n labels resolution issues at
most n zone queries, and for a wildcard whose apex has n labels at most n
queries (one per apex suffix, which is one less than the label count of the
full wildcard name); it stops at the first candidate with exactly one
eligible zone, querying no shorter candidate, and when every candidate
yields zero eligible zones it fails as not-found after exhausting them. -/
theorem claim4_query_bound_amended (remote : Remote) (zst : ZState) (d : Domain) :
    (ZoneOfDomain remote zst d).2.2.1.length ≤ d.numLabels
    ∧ (∀ pre c post zs z,
        alookup zst.zoneMemo d.dnsNameASCII = none →
        d.candidates = pre ++ c :: post →
        (∀ n ∈ pre, zeroEligible remote zst.zoneCache n) →
        zoneView remote zst.zoneCache c = some zs →
        zs.filter zoneEligible = [z] →
        (ZoneOfDomain remote zst d).1 = some z.id
        ∧ ∀ n ∈ post, RemoteCall.zoneQuery n ∉ (ZoneOfDomain remote zst d).2.2.1)
    ∧ (alookup zst.zoneMemo d.dnsNameASCII = none →
        (∀ n ∈ d.candidates, zeroEligible remote zst.zoneCache n) →
        (ZoneOfDomain remote zst d).1 = none
        ∧ Msg.zoneNotFound d.dnsNameASCII ∈ (ZoneOfDomain remote zst d).2.2.2) := by
  refine ⟨?_, ?_, ?_⟩
  · cases hm : alookup zst.zoneMemo d.dnsNameASCII with
    | some id => simp [ZoneOfDomain, hm]
    | none =>
      rw [ZoneOfDomain_calls_of_cold remote zst d hm, ← candidates_length d]
      exact zoneSearch_calls_length remote d.candidates zst.zoneCache
  · intro pre c post zs z hmemo hsplit hpre hview hf
    obtain ⟨ho, hcalls⟩ :=
      zoneSearch_single remote pre zst.zoneCache c post zs z hpre hview hf
    rw [← hsplit] at ho hcalls
    constructor
    · simp [ZoneOfDomain, hmemo, ho]
    · rw [ZoneOfDomain_calls_of_cold remote zst d hmemo]
      intro n hn hquery
      obtain ⟨k, hk, hkmem⟩ := hcalls _ hquery
      injection hk with hk2
      subst hk2
      have hnodup := candidates_nodup d
      rw [hsplit, List.nodup_append] at hnodup
      obtain ⟨-, hnd2, hdisj⟩ := hnodup
      rcases List.mem_append.mp hkmem with hk1 | hk1
      · exact hdisj hk1 (List.mem_cons_of_mem _ hn)
      · have hc : n = c := by simpa using hk1
        subst hc
        exact (List.nodup_cons.mp hnd2).1 hn
  · intro hmemo hall
    have ho := zoneSearch_exhausted remote d.candidates zst.zoneCache hall
    constructor
    · simp [ZoneOfDomain, hmemo, ho]
    · have heq : (ZoneOfDomain remote zst d).2.2.2
          = (zoneSearch remote d.candidates zst.zoneCache).2.2.2
            ++ [Msg.zoneNotFound d.dnsNameASCII] := by
        simp [ZoneOfDomain, hmemo, ho]
      rw [heq]
      simp

/-- Counterexample to C4 as stated: a wildcard whose apex has 2 labels
issues 2 zone queries on a cold all-empty resolution, not at most 2 - 1
as the claim's parenthetical would have it. -/
theorem claim4_counterexample :
    ¬ ((ZoneOfDomain remoteEmptyZones ⟨[], []⟩
          (Domain.Wildcard ["test", "org"])).2.2.1.length
        ≤ (Domain.Wildcard ["test", "org"]).numLabels - 1) := by decide

/-- Witness for C4: a cold resolution of the 3-label literal sub.test.org
against an all-empty remote stays within 3 queries and fails as not-found
after exhausting all candidates. -/
theorem claim4_witness :
    (ZoneOfDomain remoteEmptyZones ⟨[], []⟩
        (Domain.FQDN ["sub", "test", "org"])).2.2.1.length
      ≤ (Domain.FQDN ["sub", "test", "org"]).numLabels
    ∧ (ZoneOfDomain remoteEmptyZones ⟨[], []⟩ (Domain.FQDN ["sub", "test", "org"])).1 = none
    ∧ Msg.zoneNotFound "sub.test.org"
        ∈ (ZoneOfDomain remoteEmptyZones ⟨[], []⟩
            (Domain.FQDN ["sub", "test", "org"])).2.2.2 := by
  have h := claim4_query_bound_amended remoteEmptyZones ⟨[], []⟩
    (Domain.FQDN ["sub", "test", "org"])
  have h3 := h.2.2 (by decide) (fun n _ => ⟨[], rfl, rfl⟩)
  exact ⟨h.1, h3.1, h3.2⟩

/-- C5: zones classified Removed never count toward eligibility or ambiguity
and are never selected (any resolved id comes from a non-Removed zone of
some candidate), and concretely, with the only zone named test.org in
status deleted, resolving the literal test.org fails as not-found after
exactly 2 candidate queries, for test.org and then org, skipping the
deleted zone. -/
theorem claim5_removed_never_selected (remote : Remote) (zst : ZState) (d : Domain)
    (id : String)
    (hmemo : alookup zst.zoneMemo d.dnsNameASCII = none)
    (hfound : (ZoneOfDomain remote zst d).1 = some id) :
    (∃ n ∈ d.candidates, ∃ zs z, zoneView remote zst.zoneCache n = some zs ∧
        z ∈ zs ∧ classifyStatus z.status ≠ .Removed ∧ z.id = id)
    ∧ ZoneOfDomain remoteDeletedZone ⟨[], []⟩ (Domain.FQDN ["test", "org"])
        = (none, ⟨[("test.org", [⟨"zone0", "deleted"⟩]), ("org", [])], []⟩,
           [RemoteCall.zoneQuery "test.org", RemoteCall.zoneQuery "org"],
           [Msg.zoneSkipped "test.org" "deleted", Msg.zoneNotFound "test.org"]) := by
  constructor
  · cases ho : (zoneSearch remote d.candidates zst.zoneCache).1 with
    | found id0 =>
      have h1 : (ZoneOfDomain remote zst d).1 = some id0 := by
        simp [ZoneOfDomain, hmemo, ho]
      rw [hfound] at h1
      obtain rfl : id = id0 := Option.some.inj h1
      obtain ⟨n, hn, zs, z, hv, hz, hid⟩ :=
        zoneSearch_found_source remote d.candidates zst.zoneCache id ho
      rw [List.mem_filter] at hz
      refine ⟨n, hn, zs, z, hv, hz.1, ?_, hid⟩
      intro hr
      have helig := hz.2
      simp [zoneEligible, hr] at helig
    | exhausted =>
      have h1 : (ZoneOfDomain remote zst d).1 = none := by simp [ZoneOfDomain, hmemo, ho]
      rw [hfound] at h1
      simp at h1
    | ambiguous c =>
      have h1 : (ZoneOfDomain remote zst d).1 = none := by simp [ZoneOfDomain, hmemo, ho]
      rw [hfound] at h1
      simp at h1
    | failed c =>
      have h1 : (ZoneOfDomain remote zst d).1 = none := by simp [ZoneOfDomain, hmemo, ho]
      rw [hfound] at h1
      simp at h1
  · decide

/-- Witness for C5: a successful resolution against the one active zone
test.org, from which the theorem extracts a non-Removed source zone, plus
the concrete deleted-zone scenario. -/
theorem claim5_witness :
    (∃ n ∈ (Domain.FQDN ["test", "org"]).candidates, ∃ zs z,
        zoneView remoteOneZone ([] : List (String × List Zone)) n = some zs ∧
        z ∈ zs ∧ classifyStatus z.status ≠ .Removed ∧ z.id = "zone0")
    ∧ ZoneOfDomain remoteDeletedZone ⟨[], []⟩ (Domain.FQDN ["test", "org"])
        = (none, ⟨[("test.org", [⟨"zone0", "deleted"⟩]), ("org", [])], []⟩,
           [RemoteCall.zoneQuery "test.org", RemoteCall.zoneQuery "org"],
           [Msg.zoneSkipped "test.org" "deleted", Msg.zoneNotFound "test.org"]) :=
  claim5_removed_never_selected remoteOneZone ⟨[], []⟩ (Domain.FQDN ["test", "org"])
    "zone0" (by decide) (by decide)

/-- C6: a record listing whose contents fail to parse fails the whole List
call and leaves the Record Store exactly as it was (cold stays cold, warm
keeps its contents, and the store is preserved on every List failure path);
a failed zone-cache population likewise leaves the Zone Cache untouched;
and a successful List from a cold entry always contacts the remote with a
record-listing call. -/
theorem claim6_failure_preserves_store (remote : Remote)
    (parse : String → Option String) (st : CFState) (d : Domain) (fam : Family) :
    (∀ st2 calls msgs,
      ListRecords remote parse st d fam = (none, st2, calls, msgs) →
      st2.recordStore = st.recordStore)
    ∧ (∀ zc n, alookup zc n = none → remote.zones n = none →
        (zoneLookup remote zc n).2.1 = zc)
    ∧ (∀ m st2 calls msgs,
        alookup st.recordStore (d.dnsNameASCII, fam) = none →
        ListRecords remote parse st d fam = (some m, st2, calls, msgs) →
        ∃ zid, RemoteCall.recordList zid d.dnsNameASCII fam.recordType ∈ calls) := by
  refine ⟨?_, ?_, ?_⟩
  · intro st2 calls msgs hrun
    cases hw : alookup st.recordStore (d.dnsNameASCII, fam) with
    | some m =>
      have heq : ListRecords remote parse st d fam = (some m, st, [], []) := by
        simp [ListRecords, hw]
      rw [heq] at hrun
      simp at hrun
    | none =>
      cases hz : (ZoneOfDomain remote st.zs d).1 with
      | none =>
        have heq : ListRecords remote parse st d fam
            = (none, ⟨(ZoneOfDomain remote st.zs d).2.1, st.recordStore⟩,
               (ZoneOfDomain remote st.zs d).2.2.1,
               (ZoneOfDomain remote st.zs d).2.2.2) := by
          simp [ListRecords, hw, hz]
        rw [heq] at hrun
        simp only [Prod.mk.injEq, true_and] at hrun
        obtain ⟨rfl, -, -⟩ := hrun
        rfl
      | some zid =>
        cases hl : remote.recordList zid d.dnsNameASCII fam.recordType with
        | none =>
          have heq : ListRecords remote parse st d fam
              = (none, ⟨(ZoneOfDomain remote st.zs d).2.1, st.recordStore⟩,
                 (ZoneOfDomain remote st.zs d).2.2.1
                   ++ [RemoteCall.recordList zid d.dnsNameASCII fam.recordType],
                 (ZoneOfDomain remote st.zs d).2.2.2
                   ++ [Msg.recordListFailed d.dnsNameASCII]) := by
            simp [ListRecords, hw, hz, hl]
          rw [heq] at hrun
          simp only [Prod.mk.injEq, true_and] at hrun
          obtain ⟨rfl, -, -⟩ := hrun
          rfl
        | some raw =>
          cases hp : parseRecords parse raw with
          | none =>
            have heq : ListRecords remote parse st d fam
                = (none, ⟨(ZoneOfDomain remote st.zs d).2.1, st.recordStore⟩,
                   (ZoneOfDomain remote st.zs d).2.2.1
                     ++ [RemoteCall.recordList zid d.dnsNameASCII fam.recordType],
                   (ZoneOfDomain remote st.zs d).2.2.2
                     ++ [Msg.recordParseFailed d.dnsNameASCII]) := by
              simp [ListRecords, hw, hz, hl, hp]
            rw [heq] at hrun
            simp only [Prod.mk.injEq, true_and] at hrun
            obtain ⟨rfl, -, -⟩ := hrun
            rfl
          | some pm =>
            have heq : (ListRecords remote parse st d fam).1 = some pm := by
              simp [ListRecords, hw, hz, hl, hp]
            rw [hrun] at heq
            simp at heq
  · intro zc n h1 h2
    simp [zoneLookup, h1, h2]
  · intro m st2 calls msgs hcold hrun
    cases hz : (ZoneOfDomain remote st.zs d).1 with
    | none =>
      have heq : (ListRecords remote parse st d fam).1 = none := by
        simp [ListRecords, hcold, hz]
      rw [hrun] at heq
      simp at heq
    | some zid =>
      cases hl : remote.recordList zid d.dnsNameASCII fam.recordType with
      | none =>
        have heq : (ListRecords remote parse st d fam).1 = none := by
          simp [ListRecords, hcold, hz, hl]
        rw [hrun] at heq
        simp at heq
      | some raw =>
        cases hp : parseRecords parse raw with
        | none =>
          have heq : (ListRecords remote parse st d fam).1 = none := by
            simp [ListRecords, hcold, hz, hl, hp]
          rw [hrun] at heq
          simp at heq
        | some pm =>
          have heq : (ListRecords remote parse st d fam).2.2.1
              = (ZoneOfDomain remote st.zs d).2.2.1
                ++ [RemoteCall.recordList zid d.dnsNameASCII fam.recordType] := by
            simp [ListRecords, hcold, hz, hl, hp]
          rw [hrun] at heq
          have heq2 : calls = (ZoneOfDomain remote st.zs d).2.2.1
              ++ [RemoteCall.recordList zid d.dnsNameASCII fam.recordType] := heq
          exact ⟨zid, by rw [heq2]; simp⟩

/-- Witness for C6: listing sub.test.org against a remote whose listing
contains an unparseable record fails and leaves the cold store cold. -/
theorem claim6_witness :
    ((ListRecords remoteBadRecord parseMost initialState
        (Domain.FQDN ["sub", "test", "org"]) Family.v6).2.1).recordStore
      = initialState.recordStore :=
  (claim6_failure_preserves_store remoteBadRecord parseMost initialState
      (Domain.FQDN ["sub", "test", "org"]) Family.v6).1
    (ListRecords remoteBadRecord parseMost initialState
      (Domain.FQDN ["sub", "test", "org"]) Family.v6).2.1
    (ListRecords remoteBadRecord parseMost initialState
      (Domain.FQDN ["sub", "test", "org"]) Family.v6).2.2.1
    (ListRecords remoteBadRecord parseMost initialState
      (Domain.FQDN ["sub", "test", "org"]) Family.v6).2.2.2
    (by decide)

/-- C9: domain arguments written in matching expressions are normalized
(lower-cased, IDN-ASCII-encoded), so the is and sub predicates compare
normalized forms: the coffee-cup IDN label and its mixed-case ASCII form
both match the lower-case xn--53h encoding, for the literal, wildcard and
sub variants alike. -/
theorem claim9_idn_normalization :
    isPredicate "☕.de" (Domain.FQDN ["xn--53h", "de"]) = true
    ∧ isPredicate "Xn--53H.de" (Domain.FQDN ["xn--53h", "de"]) = true
    ∧ isPredicate "*.Xn--53H.de" (Domain.Wildcard ["xn--53h", "de"]) = true
    ∧ isPredicate "☕.de" (Domain.Wildcard ["xn--53h", "de"]) = false
    ∧ subPredicate "☕.de" (Domain.FQDN ["www", "xn--53h", "de"]) = true
    ∧ subPredicate "Xn--53H.de" (Domain.FQDN ["www", "xn--53h", "de"]) = true
    ∧ subPredicate "Xn--53H.de" (Domain.Wildcard ["xn--53h", "de"]) = true
    ∧ parseDomain "☕.de" = parseDomain "Xn--53H.de" := by
  refine ⟨?_, ?_, ?_, ?_, ?_, ?_, ?_, ?_⟩ <;> decide

/-- C10: zone resolution is memoized per domain: any successful resolution
leaves a state from which re-resolving the same domain returns the same
zone id with zero remote calls and zero diagnostic messages (in particular
no repetition of status warnings). -/
theorem claim10_resolution_memoized (remote : Remote) (zst : ZState) (d : Domain)
    (id : String) (zst2 : ZState) (calls : List RemoteCall) (msgs : List Msg)
    (h : ZoneOfDomain remote zst d = (some id, zst2, calls, msgs)) :
    ZoneOfDomain remote zst2 d = (some id, zst2, [], []) := by
  cases hm : alookup zst.zoneMemo d.dnsNameASCII with
  | some id0 =>
    have heq : ZoneOfDomain remote zst d = (some id0, zst, [], []) := by
      simp [ZoneOfDomain, hm]
    rw [heq] at h
    simp only [Prod.mk.injEq, Option.some.injEq] at h
    obtain ⟨rfl, rfl, -, -⟩ := h
    exact heq
  | none =>
    cases ho : (zoneSearch remote d.candidates zst.zoneCache).1 with
    | found id0 =>
      have heq : ZoneOfDomain remote zst d
          = (some id0,
             ⟨(zoneSearch remote d.candidates zst.zoneCache).2.1,
              aupsert zst.zoneMemo d.dnsNameASCII id0⟩,
             (zoneSearch remote d.candidates zst.zoneCache).2.2.1,
             (zoneSearch remote d.candidates zst.zoneCache).2.2.2) := by
        simp [ZoneOfDomain, hm, ho]
      rw [heq] at h
      simp only [Prod.mk.injEq, Option.some.injEq] at h
      obtain ⟨rfl, hst, -, -⟩ := h
      rw [← hst]
      simp [ZoneOfDomain, alookup_aupsert_self]
    | exhausted =>
      have h1 : (ZoneOfDomain remote zst d).1 = none := by simp [ZoneOfDomain, hm, ho]
      rw [h] at h1
      simp at h1
    | ambiguous c =>
      have h1 : (ZoneOfDomain remote zst d).1 = none := by simp [ZoneOfDomain, hm, ho]
      rw [h] at h1
      simp at h1
    | failed c =>
      have h1 : (ZoneOfDomain remote zst d).1 = none := by simp [ZoneOfDomain, hm, ho]
      rw [h] at h1
      simp at h1

/-- Witness for C10: after resolving sub.test.org once (a resolution that
issues two zone queries), re-resolution answers from the memo with zero
queries and zero messages. -/
theorem claim10_witness :
    ZoneOfDomain remoteOneZone
      (ZoneOfDomain remoteOneZone ⟨[], []⟩ (Domain.FQDN ["sub", "test", "org"])).2.1
      (Domain.FQDN ["sub", "test", "org"])
      = (some "zone0",
         (ZoneOfDomain remoteOneZone ⟨[], []⟩ (Domain.FQDN ["sub", "test", "org"])).2.1,
         [], []) :=
  claim10_resolution_memoized remoteOneZone ⟨[], []⟩ (Domain.FQDN ["sub", "test", "org"])
    "zone0"
    (ZoneOfDomain remoteOneZone ⟨[], []⟩ (Domain.FQDN ["sub", "test", "org"])).2.1
    (ZoneOfDomain remoteOneZone ⟨[], []⟩ (Domain.FQDN ["sub", "test", "org"])).2.2.1
    (ZoneOfDomain remoteOneZone ⟨[], []⟩ (Domain.FQDN ["sub", "test", "org"])).2.2.2
    (by decide)

end DDNS

